import Mathlib

/-!
# markbates/wave: the upload pipeline

A shallow embedding of `uploader.go` (the two validators, `Upload`, `size`) and of the
`s3Uploader` adapter of `s3/s3.go`, followed by the properties proved about them.

Conventions of the embedding.

* Go `int` and `int64` are 64 bits wide; they are `Int` here and every place that can
  leave the 64-bit range is made explicit (`Atoi` reports a range error, a `File` is
  shorter than `2^63` bytes, `uint64(s)` is `s % 2^64`).
* A Go `error` is `Option Error`, `none` being `nil`.
* Pointers are assumed non-nil: a `*multipart.FileHeader` is a `FileHeader`, a
  `*validate.Errors` is an `Errors`.  A method that mutates its receiver returns the new
  value.
* `Validate` and `Path` receive the `*multipart.FileHeader` itself and may edit it: each
  returns the header as it leaves it, and what `Upload` reads afterwards is read from
  that header.  The `*validate.Errors` that `Validate` returns is handed over to
  `Upload`: the uploader does not edit it after returning it.
* A Go `map[string]T` is an association list read by first match (`GoMap`).
* The methods of an `Uploader` are arbitrary Go code: they read and change a state of
  type `σ` that is threaded through the calls in the order Go evaluates them.
* Library code the program calls (`strconv.Atoi`, `fmt.Sprint`, `textproto.MIMEHeader`,
  `validate.Errors`, `io.Seeker`, `errors.WithStack`) is written out following the
  library; `validators.GenerateKey` and `humanize.Bytes` are parameters.
-/

deriving instance DecidableEq for Except

namespace Wave

/-! ## Errors -/

/-- Go error values.  `ErrMissingFile` is `http.ErrMissingFile`, `numError` is a
`*strconv.NumError`, `withStack` is what `errors.WithStack` builds around a cause. -/
inductive Error where
  | ErrMissingFile
  | numError (func num msg : String)
  | other (msg : String)
  | withStack (cause : Error)
  deriving DecidableEq, Repr

/-- The function `errors.WithStack`: `nil` stays `nil`, any other error is wrapped. -/
def WithStack : Option Error → Option Error
  | none => none
  | some err => some (Error.withStack err)

/-! ## Go maps with string keys -/

/-- A `map[string]β`: the list denotes the map that sends a key to the value of its first
occurrence. -/
abbrev GoMap (β : Type) := List (String × β)

namespace GoMap

variable {β : Type}

/-- Lookup `m[key]`, `none` when the key is absent. -/
def find? : GoMap β → String → Option β
  | [], _ => none
  | (k, v) :: rest, key => if k = key then some v else find? rest key

/-- Index expression `m[key]` with the zero value `zero` of `β` for an absent key. -/
def index (zero : β) (m : GoMap β) (key : String) : β :=
  (m.find? key).getD zero

/-- Assignment `m[key] = v`. -/
def assign : GoMap β → String → β → GoMap β
  | [], key, v => [(key, v)]
  | (k, w) :: rest, key, v =>
    if k = key then (key, v) :: rest else (k, w) :: assign rest key v

/-- Builtin `len(m)`: the number of keys (an entry whose key comes again further on is
not counted twice). -/
def len : GoMap β → Nat
  | [] => 0
  | (k, _) :: rest => if (find? rest k).isSome then len rest else len rest + 1

end GoMap

/-! ## `textproto.MIMEHeader` -/

/-- A `textproto.MIMEHeader`, that is a `map[string][]string`. -/
abbrev MIMEHeader := GoMap (List String)

/-- Method `MIMEHeader.Get`: the first value under the key, `""` when there is none.  The
library canonicalises `key` first; both keys the program uses, `Content-Length` and
`Content-Type`, are their own canonical form. -/
def MIMEHeader.Get (h : MIMEHeader) (key : String) : String :=
  match GoMap.index [] h key with
  | [] => ""
  | v :: _ => v

/-- Method `MIMEHeader.Set`: the key now has the single value `value`. -/
def MIMEHeader.Set (h : MIMEHeader) (key value : String) : MIMEHeader :=
  GoMap.assign h key [value]

/-- A `multipart.FileHeader`, with the fields the program reads. -/
structure FileHeader where
  Filename : String
  Header : MIMEHeader
  deriving DecidableEq, Repr

/-! ## `validate.Errors` -/

/-- A `validate.Errors`: its `Errors` map from key to messages. -/
abbrev Errors := GoMap (List String)

/-- The constructor `validate.NewErrors`. -/
def NewErrors : Errors := []

/-- Method `Errors.Add`: `v.Errors[key] = append(v.Errors[key], msg)`. -/
def Errors.Add (v : Errors) (key msg : String) : Errors :=
  GoMap.assign v key (GoMap.index [] v key ++ [msg])

/-- Method `Errors.Count`: `len(v.Errors)`. -/
def Errors.Count (v : Errors) : Nat :=
  GoMap.len v

/-- Method `Errors.HasAny`: `v.Count() > 0`. -/
def Errors.HasAny (v : Errors) : Bool :=
  decide (v.Count > 0)

/-! ## `strconv.Atoi` and `fmt.Sprint` -/

/-- The digit loop of `strconv.Atoi`: a run of ASCII decimal digits read onto `n`, `none`
at the first other character. -/
def parseDigits : List Char → Nat → Option Nat
  | [], n => some n
  | c :: cs, n => if c.isDigit then parseDigits cs (n * 10 + (c.toNat - 48)) else none

/-- The sign step of `strconv.Atoi`: one leading `-` or `+` is taken off; the flag says
whether it was `-`. -/
def splitSign : List Char → Bool × List Char
  | '-' :: r => (true, r)
  | '+' :: r => (false, r)
  | r => (false, r)

/-- The function `strconv.Atoi` for a 64-bit `int`: an optional sign, then one or more
decimal digits; a syntax error otherwise, a range error when the value does not fit. -/
def Atoi (s : String) : Except Error Int :=
  let signed := splitSign s.toList
  if signed.2 = [] then .error (Error.numError "Atoi" s "invalid syntax")
  else
    match parseDigits signed.2 0 with
    | none => .error (Error.numError "Atoi" s "invalid syntax")
    | some un =>
      if signed.1 then
        if un ≤ 2 ^ 63 then .ok (-(un : Int))
        else .error (Error.numError "Atoi" s "value out of range")
      else
        if un < 2 ^ 63 then .ok (un : Int)
        else .error (Error.numError "Atoi" s "value out of range")

/-- The call `fmt.Sprint(n)` for an `int64`: the decimal digits, after `-` when negative. -/
def Sprint (n : Int) : String :=
  if n < 0 then String.mk ('-' :: Nat.toDigits 10 n.natAbs)
  else String.mk (Nat.toDigits 10 n.natAbs)

/-! ## `multipart.File` -/

/-- A `multipart.File` seen through `io.Seeker`: the bytes, the current offset, and the
outcome of the coming `Seek` calls (`some err` makes that call fail with `err`; past the
end of the list no call is made to fail). -/
structure File where
  data : List UInt8
  pos : Nat
  faults : List (Option Error)
  hsize : data.length < 2 ^ 63
  deriving DecidableEq

/-- Method `Seek(offset, whence)` of `io.Seeker`: whence `0` is relative to the start,
`1` to the current offset, `2` to the end; the result is the new offset from the start.
An invalid whence or a negative new offset is an error. -/
def File.Seek (f : File) (offset : Int) (whence : Nat) : Except Error Int × File :=
  match f.faults with
  | some err :: rest => (.error err, { f with faults := rest })
  | _ =>
    let g : File := { f with faults := f.faults.tail }
    let target : Option Int :=
      match whence with
      | 0 => some offset
      | 1 => some (offset + f.pos)
      | 2 => some (offset + f.data.length)
      | _ => none
    match target with
    | none => (.error (Error.other "Seek: invalid whence"), g)
    | some t =>
      if t < 0 then (.error (Error.other "Seek: negative position"), g)
      else (.ok t, { g with pos := t.toNat })

/-- The bytes a reader gets from the file from its current offset to the end. -/
def File.readAll (f : File) : List UInt8 :=
  f.data.drop f.pos

/-! ## The validators -/

/-- The struct `FileTypeValidator`. -/
structure FileTypeValidator where
  Field : String
  AllowedTypes : GoMap Bool
  Headers : FileHeader

/-- Method `FileTypeValidator.IsValid`; `GenerateKey` is `validators.GenerateKey`. -/
def FileTypeValidator.IsValid (GenerateKey : String → String) (f : FileTypeValidator)
    (errors : Errors) : Errors :=
  let key := GenerateKey f.Field
  if !(GoMap.index false f.AllowedTypes (f.Headers.Header.Get "Content-Type")) then
    errors.Add key "not an allowed type"
  else errors

/-- The struct `MaxFileSizeValidator`. -/
structure MaxFileSizeValidator where
  Field : String
  MaxSize : Int
  Headers : FileHeader

/-- The conversion `uint64(s)` of an `int`. -/
def toUint64 (s : Int) : Nat :=
  (s % 2 ^ 64).toNat

/-- Method `MaxFileSizeValidator.IsValid`; `GenerateKey` is `validators.GenerateKey` and
`Bytes` is `humanize.Bytes`, a function of a `uint64`. -/
def MaxFileSizeValidator.IsValid (GenerateKey : String → String) (Bytes : Nat → String)
    (m : MaxFileSizeValidator) (errors : Errors) : Errors :=
  let key := GenerateKey m.Field
  match Atoi (m.Headers.Header.Get "Content-Length") with
  | .error _ => errors.Add key "couldn't parse content length"
  | .ok s =>
    if s > m.MaxSize then errors.Add key ("is too big " ++ Bytes (toUint64 s))
    else errors

/-! ## The upload pipeline -/

/-- An `*http.Request`, as far as `Upload` uses it: what `req.FormFile(key)` returns.
An error `Error.ErrMissingFile` is the library reporting that no file is attached under
the key. -/
structure Request where
  FormFile : String → Except Error (File × FileHeader)

/-- The interface `Uploader`.  Each method is given the state of the implementation and
returns the state it leaves.  `Path` and `Validate` are passed a pointer to the file
header: next to their results they return the header as they leave it. -/
structure Uploader (σ : Type) where
  FieldName : σ → String × σ
  Path : FileHeader → σ → String × FileHeader × σ
  Validate : FileHeader → σ → (Errors × Option Error) × FileHeader × σ
  Put : String → File → Int → String → σ → Option Error × σ

/-- The function `size`: seek to the end for the length (`whence = 2`), then back to the
start. -/
def size (f : File) : Except Error Int × File :=
  match f.Seek 0 2 with
  | (.error err, f) => (.error (Error.withStack err), f)
  | (.ok size, f) =>
    match f.Seek 0 0 with
    | (.error err, f) => (.error (Error.withStack err), f)
    | (.ok _, f) => (.ok size, f)

/-- Lines 63 to 76 of `Upload`: the size of the file, from the header when it declares a
`Content-Length`, by seeking otherwise (the length is then written into the header).  The
result is `fSize` with the stream and the header as the step leaves them. -/
def resolveSize (f : File) (h : FileHeader) : Except Error (Int × File × FileHeader) :=
  if h.Header.Get "Content-Length" = "" then
    match size f with
    | (.error err, _) => .error err
    | (.ok fSize, f) =>
      .ok (fSize, f, { h with Header := h.Header.Set "Content-Length" (Sprint fSize) })
  else
    match Atoi (h.Header.Get "Content-Length") with
    | .error err => .error err
    | .ok s => .ok (s, f, h)

/-- The function `Upload`.  The result is the pair `Upload` returns and the state of the
uploader afterwards.  In the last call Go evaluates `u.Path(h)` before
`h.Header.Get("Content-Type")`, so the content type is read from the header as `Validate`
and then `Path` have left it. -/
def Upload {σ : Type} (req : Request) (u : Uploader σ) (s : σ) :
    (Errors × Option Error) × σ :=
  let verrs := NewErrors
  match u.FieldName s with
  | (field, s) =>
    match req.FormFile field with
    | .error err =>
      if err = Error.ErrMissingFile then ((verrs, none), s)
      else ((verrs, WithStack (some err)), s)
    | .ok (f, h) =>
      match resolveSize f h with
      | .error err => ((verrs, WithStack (some err)), s)
      | .ok (fSize, f, h) =>
        match u.Validate h s with
        | ((verrs, some err), _, s) => ((verrs, WithStack (some err)), s)
        | ((verrs, none), h, s) =>
          if verrs.HasAny then ((verrs, none), s)
          else
            match u.Path h s with
            | (path, h, s) =>
              match u.Put path f fSize (h.Header.Get "Content-Type") s with
              | (some err, s) => ((verrs, WithStack (some err)), s)
              | (none, s) => ((verrs, none), s)

/-! ## Observing the calls made on an uploader -/

/-- One call of an `Uploader` method: its arguments, the header as it stands when the
call is made, and what the call returned. -/
inductive Call where
  | FieldName (ret : String)
  | Path (h : FileHeader) (ret : String)
  | Validate (h : FileHeader) (verrs : Errors) (err : Option Error)
  | Put (path : String) (stream : File) (size : Int) (contentType : String)
      (err : Option Error)
  deriving DecidableEq

/-- Whether the call is a call of `Put`. -/
def Call.isPut : Call → Bool
  | .Put _ _ _ _ _ => true
  | _ => false

/-- Whether the call is a call of `Validate`. -/
def Call.isValidate : Call → Bool
  | .Validate _ _ _ => true
  | _ => false

/-- The uploader `u` with a log: every method behaves as in `u` and appends its call to
the log kept next to the state of `u`. -/
def recorded {σ : Type} (u : Uploader σ) : Uploader (σ × List Call) where
  FieldName := fun st =>
    match u.FieldName st.1 with
    | (ret, s) => (ret, (s, st.2 ++ [Call.FieldName ret]))
  Path := fun h st =>
    match u.Path h st.1 with
    | (ret, k, s) => (ret, k, (s, st.2 ++ [Call.Path h ret]))
  Validate := fun h st =>
    match u.Validate h st.1 with
    | ((verrs, err), k, s) => ((verrs, err), k, (s, st.2 ++ [Call.Validate h verrs err]))
  Put := fun path r size mt st =>
    match u.Put path r size mt st.1 with
    | (err, s) => (err, (s, st.2 ++ [Call.Put path r size mt err]))

/-- The calls one `Upload req u` makes on `u`, started in state `s`, in order. -/
def calls {σ : Type} (req : Request) (u : Uploader σ) (s : σ) : List Call :=
  (Upload req (recorded u) (s, [])).2.2

/-! ## The S3 adapter -/

/-- The constant `s3.PublicRead`. -/
def PublicRead : String := "public-read"

/-- The type `s3Uploader` of `s3/s3.go`.  The state `σ` is the bucket and `PutReader` is
the bucket's `PutReader` method (path, reader, length, content type, permission). -/
def s3Uploader {σ : Type}
    (PutReader : String → File → Int → String → String → σ → Option Error × σ) :
    Uploader σ where
  FieldName := fun s => ("File", s)
  Path := fun h s => (h.Filename, h, s)
  Validate := fun h s => ((NewErrors, none), h, s)
  Put := fun path r size mt s =>
    match PutReader path r size mt PublicRead s with
    | (some err, s) => (WithStack (some err), s)
    | (none, s) => (none, s)

/-! ## Sample inputs -/

/-- A two-byte file at offset `1` whose seeks all succeed. -/
def sampleFile : File := ⟨[80, 78], 1, [], by decide⟩

/-- The file `sampleFile` after `size`: the same bytes, offset `0`. -/
def sampleFileRewound : File := ⟨[80, 78], 0, [], by decide⟩

/-- A two-byte file whose second `Seek` fails. -/
def sampleFileBadSeek : File := ⟨[80, 78], 0, [none, some (Error.other "EIO")], by decide⟩

/-- A header of a PNG file that declares no length. -/
def sampleHeader : FileHeader := ⟨"a.png", [("Content-Type", ["image/png"])]⟩

/-- A header of a JPEG file that declares ten million bytes. -/
def sampleBigHeader : FileHeader :=
  ⟨"b.jpg", [("Content-Type", ["image/jpeg"]), ("Content-Length", ["10000000"])]⟩

/-- A request with `sampleFile` attached under `File` and nothing under any other key. -/
def sampleRequest : Request :=
  ⟨fun key => if key = "File" then .ok (sampleFile, sampleHeader)
    else .error Error.ErrMissingFile⟩

/-- A request with a ten-million-byte JPEG declared under `File`. -/
def sampleBigRequest : Request :=
  ⟨fun key => if key = "File" then .ok (sampleFile, sampleBigHeader)
    else .error Error.ErrMissingFile⟩

/-- A request with `sampleFileBadSeek` attached under `File`, no length declared. -/
def sampleBadSeekRequest : Request :=
  ⟨fun key => if key = "File" then .ok (sampleFileBadSeek, sampleHeader)
    else .error Error.ErrMissingFile⟩

/-- A lower-casing stand-in for `validators.GenerateKey`. -/
def sampleKey (s : String) : String := String.mk (s.toList.map Char.toLower)

/-- An uploader whose state counts the objects stored.  It reads the field `field`,
stores under `uploads/` followed by the file name, validates with the two validators
(PNG only, at most `maxSize` bytes) and its `Put` fails when `putFails` is set. -/
def sampleUploader (field : String) (maxSize : Int) (Bytes : Nat → String)
    (putFails : Bool) : Uploader Nat where
  FieldName := fun s => (field, s)
  Path := fun h s => ("uploads/" ++ h.Filename, h, s)
  Validate := fun h s =>
    let verrs := NewErrors
    let verrs := FileTypeValidator.IsValid sampleKey ⟨field, [("image/png", true)], h⟩ verrs
    let verrs := MaxFileSizeValidator.IsValid sampleKey Bytes ⟨field, maxSize, h⟩ verrs
    ((verrs, none), h, s)
  Put := fun _ _ _ _ s =>
    if putFails then (some (Error.other "AccessDenied"), s) else (none, s + 1)

/-- An uploader that edits the header it is given: `Validate` accepts every file and
renames it to `renamed.txt`, `Path` stores under `uploads/` followed by the file name and
sets the `Content-Type` to `text/plain`.  Its state counts the objects stored. -/
def sampleRenamingUploader : Uploader Nat where
  FieldName := fun s => ("File", s)
  Path := fun h s =>
    ("uploads/" ++ h.Filename,
      { h with Header := h.Header.Set "Content-Type" "text/plain" }, s)
  Validate := fun h s => ((NewErrors, none), { h with Filename := "renamed.txt" }, s)
  Put := fun _ _ _ _ s => (none, s + 1)

/-- A stand-in for the bucket's `PutReader`: the bucket is the list of stored paths and
every store succeeds. -/
def samplePutReader (path : String) (_r : File) (_size : Int) (_mt _perm : String)
    (bucket : List String) : Option Error × List String :=
  (none, path :: bucket)

/-- The decimal digits of a natural number. -/
def decimal (n : Nat) : String := String.mk (Nat.toDigits 10 n)

/-- A rendering in the manner of `humanize.Bytes` (powers of 1000, one decimal below ten,
none from ten on), computed in integer arithmetic where the library computes in
`float64`.  It stands in for the parameter `Bytes` in the sample runs only. -/
def sampleBytes (s : Nat) : String :=
  if s < 10 then decimal s ++ " B"
  else
    let e := ([1, 2, 3, 4, 5, 6].filter (fun i => decide (1000 ^ i ≤ s))).length
    let suffix := ["B", "kB", "MB", "GB", "TB", "PB", "EB"].getD e ""
    let tenths := (20 * s + 1000 ^ e) / (2 * 1000 ^ e)
    if tenths < 100 then
      decimal (tenths / 10) ++ "." ++ decimal (tenths % 10) ++ " " ++ suffix
    else
      let q := tenths / 10
      let r := tenths % 10
      let n := if r < 5 ∨ (r = 5 ∧ q % 2 = 0) then q else q + 1
      decimal n ++ " " ++ suffix

/-! ## The causes of an operational error -/

/-- Form-file extraction fails with an error other than the missing-file error. -/
def extractionFails {σ : Type} (req : Request) (u : Uploader σ) (s : σ) : Prop :=
  ∃ err, req.FormFile (u.FieldName s).1 = .error err ∧ err ≠ Error.ErrMissingFile

/-- A file is attached whose header has a non-empty `Content-Length` that `strconv.Atoi`
rejects. -/
def lengthMalformed {σ : Type} (req : Request) (u : Uploader σ) (s : σ) : Prop :=
  ∃ f h err, req.FormFile (u.FieldName s).1 = .ok (f, h) ∧
    h.Header.Get "Content-Length" ≠ "" ∧ Atoi (h.Header.Get "Content-Length") = .error err

/-- A file is attached whose header has no `Content-Length` and one of the two seeks of
`size` fails: the seek to the end, or after it the seek back to the start. -/
def seekFails {σ : Type} (req : Request) (u : Uploader σ) (s : σ) : Prop :=
  ∃ f h, req.FormFile (u.FieldName s).1 = .ok (f, h) ∧ h.Header.Get "Content-Length" = "" ∧
    ((∃ err g, f.Seek 0 2 = (.error err, g)) ∨
      (∃ n g err k, f.Seek 0 2 = (.ok n, g) ∧ g.Seek 0 0 = (.error err, k)))

/-- The uploader's `Validate` is called and returns a non-nil error. -/
def validateFails {σ : Type} (req : Request) (u : Uploader σ) (s : σ) : Prop :=
  ∃ h verrs err, Call.Validate h verrs (some err) ∈ calls req u s

/-- The uploader's `Put` is called and returns a non-nil error. -/
def putFails {σ : Type} (req : Request) (u : Uploader σ) (s : σ) : Prop :=
  ∃ path f sz ct err, Call.Put path f sz ct (some err) ∈ calls req u s

/-! ## Lemmas: maps, headers, validation results -/

theorem GoMap.find?_assign_self {β : Type} (m : GoMap β) (key : String) (v : β) :
    GoMap.find? (GoMap.assign m key v) key = some v := by
  induction m with
  | nil => simp [GoMap.assign, GoMap.find?]
  | cons p rest ih =>
    obtain ⟨k, w⟩ := p
    by_cases hk : k = key
    · simp [GoMap.assign, GoMap.find?, hk]
    · simp [GoMap.assign, GoMap.find?, hk, ih]

theorem GoMap.find?_assign_ne {β : Type} (m : GoMap β) (key other : String) (v : β)
    (hne : other ≠ key) :
    GoMap.find? (GoMap.assign m key v) other = GoMap.find? m other := by
  induction m with
  | nil => simp [GoMap.assign, GoMap.find?, Ne.symm hne]
  | cons p rest ih =>
    obtain ⟨k, w⟩ := p
    by_cases hk : k = key
    · subst hk
      simp [GoMap.assign, GoMap.find?, Ne.symm hne]
    · by_cases hko : k = other
      · subst hko
        simp [GoMap.assign, GoMap.find?, hk]
      · simp [GoMap.assign, GoMap.find?, hk, hko, ih]

theorem GoMap.len_eq_zero_iff {β : Type} (m : GoMap β) : GoMap.len m = 0 ↔ m = [] := by
  induction m with
  | nil => simp [GoMap.len]
  | cons p rest ih =>
    obtain ⟨k, w⟩ := p
    simp only [GoMap.len, reduceCtorEq, iff_false]
    by_cases hk : (GoMap.find? rest k).isSome = true
    · simp only [hk, ↓reduceIte]
      intro h0
      rw [ih.mp h0] at hk
      simp [GoMap.find?] at hk
    · simp [hk]

theorem MIMEHeader.Get_Set_self (h : MIMEHeader) (key value : String) :
    (h.Set key value).Get key = value := by
  simp [MIMEHeader.Get, MIMEHeader.Set, GoMap.index, GoMap.find?_assign_self]

theorem MIMEHeader.Get_Set_ne (h : MIMEHeader) (key other value : String)
    (hne : other ≠ key) : (h.Set key value).Get other = h.Get other := by
  simp [MIMEHeader.Get, MIMEHeader.Set, GoMap.index, GoMap.find?_assign_ne _ _ _ _ hne]

theorem Errors.HasAny_eq_false_iff (v : Errors) : v.HasAny = false ↔ v = [] := by
  simp [Errors.HasAny, Errors.Count, GoMap.len_eq_zero_iff]

theorem Errors.HasAny_eq_true_iff (v : Errors) : v.HasAny = true ↔ v ≠ [] := by
  have h := Errors.HasAny_eq_false_iff v
  cases hv : v.HasAny <;> simp_all

/-- After `Add`, the key holds its former messages followed by the new one. -/
theorem Errors.index_Add_self (v : Errors) (key msg : String) :
    GoMap.index [] (v.Add key msg) key = GoMap.index [] v key ++ [msg] := by
  simp [Errors.Add, GoMap.index, GoMap.find?_assign_self]

/-- After `Add`, every other key is as before, present or absent. -/
theorem Errors.find?_Add_ne (v : Errors) (key other msg : String) (hne : other ≠ key) :
    GoMap.find? (v.Add key msg) other = GoMap.find? v other := by
  simp [Errors.Add, GoMap.find?_assign_ne _ _ _ _ hne]

/-! ## Lemmas: decimal rendering and parsing -/

theorem digitChar_isDigit (d : Nat) (hd : d < 10) :
    (Nat.digitChar d).isDigit = true ∧ (Nat.digitChar d).toNat - 48 = d := by
  interval_cases d <;> exact ⟨by decide, by decide⟩

theorem digitChar_ne_sign (d : Nat) (hd : d < 10) :
    Nat.digitChar d ≠ '-' ∧ Nat.digitChar d ≠ '+' := by
  interval_cases d <;> exact ⟨by decide, by decide⟩

theorem parseDigits_toDigitsCore (fuel : Nat) :
    ∀ (n : Nat) (ds : List Char), n < fuel →
      parseDigits (Nat.toDigitsCore 10 fuel n ds) 0 = parseDigits ds n := by
  induction fuel with
  | zero => intro n ds h; exact absurd h (Nat.not_lt_zero _)
  | succ fuel ih =>
    intro n ds hn
    have hd := digitChar_isDigit (n % 10) (Nat.mod_lt _ (by decide))
    unfold Nat.toDigitsCore
    by_cases h0 : n / 10 = 0
    · have hlt : n < 10 := by omega
      simp only [h0, ↓reduceIte, parseDigits, hd.1, hd.2]
      congr 1
      omega
    · simp only [h0, ↓reduceIte]
      rw [ih (n / 10) _ (by omega)]
      simp only [parseDigits, hd.1, hd.2, ↓reduceIte]
      congr 1
      omega

theorem toDigitsCore_head (fuel : Nat) :
    ∀ (n : Nat) (ds : List Char), 0 < fuel →
      ∃ d rest, d < 10 ∧ Nat.toDigitsCore 10 fuel n ds = Nat.digitChar d :: rest := by
  induction fuel with
  | zero => intro n ds h; exact absurd h (Nat.lt_irrefl _)
  | succ fuel ih =>
    intro n ds _
    unfold Nat.toDigitsCore
    by_cases h0 : n / 10 = 0
    · exact ⟨n % 10, ds, Nat.mod_lt _ (by decide), by simp [h0]⟩
    · simp only [h0, ↓reduceIte]
      cases fuel with
      | zero => exact ⟨n % 10, ds, Nat.mod_lt _ (by decide), by simp [Nat.toDigitsCore]⟩
      | succ k => exact ih _ _ (Nat.succ_pos _)

theorem parseDigits_toDigits (n : Nat) : parseDigits (Nat.toDigits 10 n) 0 = some n := by
  unfold Nat.toDigits
  rw [parseDigits_toDigitsCore (n + 1) n [] (Nat.lt_succ_self _)]
  rfl

/-- An `int64` that is printed by `fmt.Sprint` is read back by `strconv.Atoi`. -/
theorem Atoi_Sprint (n : Int) (hlo : -(2 ^ 63) ≤ n) (hhi : n < 2 ^ 63) :
    Atoi (Sprint n) = .ok n := by
  obtain ⟨d, rest, hd, hds⟩ := toDigitsCore_head (n.natAbs + 1) n.natAbs [] (Nat.succ_pos _)
  have hds2 : Nat.toDigits 10 n.natAbs = Nat.digitChar d :: rest := hds
  have hp := parseDigits_toDigits n.natAbs
  have hsign := digitChar_ne_sign d hd
  have hne : Nat.toDigits 10 n.natAbs ≠ [] := by simp [hds2]
  by_cases hneg : n < 0
  · have hle : n.natAbs ≤ 9223372036854775808 := by omega
    have hval : -((n.natAbs : Nat) : Int) = n := by omega
    simp [-Int.natCast_natAbs, Atoi, Sprint, splitSign, hneg, hp, hne, hle, hval]
  · have hlt : n.natAbs < 9223372036854775808 := by omega
    have hval : ((n.natAbs : Nat) : Int) = n := by omega
    have hm : splitSign (Nat.toDigits 10 n.natAbs) = (false, Nat.toDigits 10 n.natAbs) := by
      rw [hds2]
      unfold splitSign
      split
      · rename_i heq
        exact absurd (List.cons.inj heq).1 hsign.1
      · rename_i heq
        exact absurd (List.cons.inj heq).1 hsign.2
      · rfl
    simp [-Int.natCast_natAbs, Atoi, Sprint, hneg, hm, hp, hne, hlt, hval]

/-- What `strconv.Atoi` returns is an `int`: it lies in the 64-bit range. -/
theorem Atoi_range (str : String) (n : Int) (h : Atoi str = .ok n) :
    -(2 ^ 63) ≤ n ∧ n < 2 ^ 63 := by
  unfold Atoi at h
  simp only at h
  split at h
  · simp at h
  · split at h
    · simp at h
    · split at h
      · split at h
        · simp only [Except.ok.injEq] at h
          omega
        · simp at h
      · split at h
        · simp only [Except.ok.injEq] at h
          omega
        · simp at h

/-! ## Lemmas: seeking and size resolution -/

/-- A `Seek(0, 2)` either fails on a scripted fault or returns the length of the file and
leaves the offset at the end. -/
theorem File.Seek_end (f : File) :
    (∃ err rest, f.faults = some err :: rest ∧
        f.Seek 0 2 = (.error err, { f with faults := rest })) ∨
      f.Seek 0 2 =
        (.ok (f.data.length : Int), { f with faults := f.faults.tail, pos := f.data.length }) := by
  unfold File.Seek
  split
  · rename_i err rest hf
    exact Or.inl ⟨err, rest, hf, rfl⟩
  · right
    simp

/-- A `Seek(0, 0)` either fails on a scripted fault or returns `0` and leaves the offset
at the start. -/
theorem File.Seek_start (f : File) :
    (∃ err rest, f.faults = some err :: rest ∧
        f.Seek 0 0 = (.error err, { f with faults := rest })) ∨
      f.Seek 0 0 = (.ok 0, { f with faults := f.faults.tail, pos := 0 }) := by
  unfold File.Seek
  split
  · rename_i err rest hf
    exact Or.inl ⟨err, rest, hf, rfl⟩
  · right
    simp

/-- What `size` returns, by the outcome of its two seeks. -/
theorem size_cases (f : File) :
    (∃ err g, f.Seek 0 2 = (.error err, g) ∧ size f = (.error (Error.withStack err), g)) ∨
    (∃ n g err k, f.Seek 0 2 = (.ok n, g) ∧ g.Seek 0 0 = (.error err, k) ∧
        size f = (.error (Error.withStack err), k)) ∨
    (∃ n g m k, f.Seek 0 2 = (.ok n, g) ∧ g.Seek 0 0 = (.ok m, k) ∧
        size f = (.ok n, k)) := by
  unfold size
  rcases h1 : f.Seek 0 2 with ⟨r1, g⟩
  cases r1 with
  | error err => exact Or.inl ⟨err, g, rfl, rfl⟩
  | ok n =>
    rcases h2 : g.Seek 0 0 with ⟨r2, k⟩
    cases r2 with
    | error err => exact Or.inr (Or.inl ⟨n, g, err, k, rfl, h2, by simp [h2]⟩)
    | ok m => exact Or.inr (Or.inr ⟨n, g, m, k, rfl, h2, by simp [h2]⟩)

/-- What `resolveSize` returns, by the branch taken. -/
theorem resolveSize_cases (f : File) (h : FileHeader) :
    (h.Header.Get "Content-Length" = "" ∧ ∃ err g, size f = (.error err, g) ∧
        resolveSize f h = .error err) ∨
    (h.Header.Get "Content-Length" = "" ∧ ∃ n g, size f = (.ok n, g) ∧
        resolveSize f h =
          .ok (n, g, { h with Header := h.Header.Set "Content-Length" (Sprint n) })) ∨
    (h.Header.Get "Content-Length" ≠ "" ∧ ∃ err,
        Atoi (h.Header.Get "Content-Length") = .error err ∧ resolveSize f h = .error err) ∨
    (h.Header.Get "Content-Length" ≠ "" ∧ ∃ n,
        Atoi (h.Header.Get "Content-Length") = .ok n ∧ resolveSize f h = .ok (n, f, h)) := by
  unfold resolveSize
  by_cases hcl : h.Header.Get "Content-Length" = ""
  · rcases hs : size f with ⟨r, g⟩
    cases r with
    | error err => exact Or.inl ⟨hcl, err, g, rfl, by simp [hcl]⟩
    | ok n => exact Or.inr (Or.inl ⟨hcl, n, g, rfl, by simp [hcl]⟩)
  · cases ha : Atoi (h.Header.Get "Content-Length") with
    | error err => exact Or.inr (Or.inr (Or.inl ⟨hcl, err, rfl, by simp [hcl]⟩))
    | ok n => exact Or.inr (Or.inr (Or.inr ⟨hcl, n, rfl, by simp [hcl]⟩))

/-! ## Lemmas: the exits of `Upload` -/

/-- Every run of `Upload` leaves by one of its six `return` statements; for each the
lemma gives what is returned, the final state and the calls made on the uploader.  The
header is `k` after size resolution, `k2` as `Validate` leaves it, `k3` as `Path` leaves
it. -/
theorem upload_exits {σ : Type} (req : Request) (u : Uploader σ) (s : σ) :
    ∃ field s1, u.FieldName s = (field, s1) ∧
      ((req.FormFile field = .error Error.ErrMissingFile ∧
          Upload req u s = ((NewErrors, none), s1) ∧
          calls req u s = [Call.FieldName field]) ∨
       (∃ err, req.FormFile field = .error err ∧ err ≠ Error.ErrMissingFile ∧
          Upload req u s = ((NewErrors, some (Error.withStack err)), s1) ∧
          calls req u s = [Call.FieldName field]) ∨
       (∃ f h, req.FormFile field = .ok (f, h) ∧
          ((∃ err, resolveSize f h = .error err ∧
              Upload req u s = ((NewErrors, some (Error.withStack err)), s1) ∧
              calls req u s = [Call.FieldName field]) ∨
           (∃ fSize g k verrs verr k2 s2, resolveSize f h = .ok (fSize, g, k) ∧
              u.Validate k s1 = ((verrs, verr), k2, s2) ∧
              ((∃ err, verr = some err ∧
                  Upload req u s = ((verrs, some (Error.withStack err)), s2) ∧
                  calls req u s = [Call.FieldName field, Call.Validate k verrs (some err)]) ∨
               (verr = none ∧ verrs.HasAny = true ∧
                  Upload req u s = ((verrs, none), s2) ∧
                  calls req u s = [Call.FieldName field, Call.Validate k verrs none]) ∨
               (verr = none ∧ verrs.HasAny = false ∧
                  ∃ path k3 s3 perr s4, u.Path k2 s2 = (path, k3, s3) ∧
                    u.Put path g fSize (k3.Header.Get "Content-Type") s3 = (perr, s4) ∧
                    Upload req u s = ((verrs, WithStack perr), s4) ∧
                    calls req u s =
                      [Call.FieldName field, Call.Validate k verrs none, Call.Path k2 path,
                        Call.Put path g fSize (k3.Header.Get "Content-Type") perr])))))) := by
  rcases hF : u.FieldName s with ⟨field, s1⟩
  refine ⟨field, s1, rfl, ?_⟩
  cases hreq : req.FormFile field with
  | error err =>
    by_cases hm : err = Error.ErrMissingFile
    · subst hm
      left
      simp [Upload, calls, recorded, hF, hreq]
    · right; left
      exact ⟨err, rfl, hm, by simp [Upload, calls, recorded, hF, hreq, hm, WithStack]⟩
  | ok fh =>
    obtain ⟨f, h⟩ := fh
    right; right
    refine ⟨f, h, rfl, ?_⟩
    cases hr : resolveSize f h with
    | error err =>
      left
      exact ⟨err, rfl, by simp [Upload, calls, recorded, hF, hreq, hr, WithStack]⟩
    | ok r =>
      obtain ⟨fSize, g, k⟩ := r
      right
      rcases hv : u.Validate k s1 with ⟨⟨verrs, verr⟩, k2, s2⟩
      refine ⟨fSize, g, k, verrs, verr, k2, s2, rfl, hv, ?_⟩
      cases verr with
      | some err =>
        left
        exact ⟨err, rfl, by simp [Upload, calls, recorded, hF, hreq, hr, hv, WithStack]⟩
      | none =>
        right
        cases hany : verrs.HasAny with
        | true =>
          left
          exact ⟨rfl, rfl, by simp [Upload, calls, recorded, hF, hreq, hr, hv, hany]⟩
        | false =>
          right
          rcases hp : u.Path k2 s2 with ⟨path, k3, s3⟩
          rcases hput : u.Put path g fSize (k3.Header.Get "Content-Type") s3 with ⟨perr, s4⟩
          refine ⟨rfl, rfl, path, k3, s3, perr, s4, rfl, hput, ?_⟩
          cases perr with
          | some err => simp [Upload, calls, recorded, hF, hreq, hr, hv, hany, hp, hput, WithStack]
          | none => simp [Upload, calls, recorded, hF, hreq, hr, hv, hany, hp, hput, WithStack]

/-- When `size` succeeds it returns the length of the file and leaves the same bytes with
the offset at the start. -/
theorem size_ok (f g : File) (n : Int) (h : size f = (.ok n, g)) :
    n = (f.data.length : Int) ∧ g.pos = 0 ∧ g.data = f.data := by
  rcases size_cases f with ⟨err, k, _, hs⟩ | ⟨n1, g1, err, k, _, _, hs⟩ | ⟨n1, g1, m, k, h1, h2, hs⟩
  · rw [hs] at h; simp at h
  · rw [hs] at h; simp at h
  · rw [hs] at h
    simp only [Prod.mk.injEq, Except.ok.injEq] at h
    obtain ⟨hn, hg⟩ := h
    subst hn hg
    rcases File.Seek_end f with ⟨e1, r1, _, he⟩ | he
    · rw [he] at h1; simp at h1
    · rw [he] at h1
      simp only [Prod.mk.injEq, Except.ok.injEq] at h1
      obtain ⟨hn1, hg1⟩ := h1
      rcases File.Seek_start g1 with ⟨e2, r2, _, he2⟩ | he2
      · rw [he2] at h2; simp at h2
      · rw [he2] at h2
        simp only [Prod.mk.injEq, Except.ok.injEq] at h2
        obtain ⟨_, hk⟩ := h2
        subst hk hg1
        exact ⟨hn1.symm, rfl, rfl⟩

/-- When `resolveSize` succeeds: the stream keeps its bytes, the header keeps its file
name and its `Content-Type`, and its `Content-Length` now reads back as the size. -/
theorem resolveSize_ok (f g : File) (h k : FileHeader) (n : Int)
    (hr : resolveSize f h = .ok (n, g, k)) :
    g.data = f.data ∧ k.Filename = h.Filename ∧
      k.Header.Get "Content-Type" = h.Header.Get "Content-Type" ∧
      k.Header.Get "Content-Length" ≠ "" ∧ Atoi (k.Header.Get "Content-Length") = .ok n := by
  rcases resolveSize_cases f h with ⟨_, err, g1, _, he⟩ | ⟨_, n1, g1, hs, he⟩ |
    ⟨_, err, _, he⟩ | ⟨hcl, n1, ha, he⟩
  · rw [he] at hr; simp at hr
  · rw [he] at hr
    simp only [Except.ok.injEq, Prod.mk.injEq] at hr
    obtain ⟨hn, hg, hk⟩ := hr
    subst hn hg hk
    obtain ⟨hlen, _, hdata⟩ := size_ok f g1 n1 hs
    have hlt := f.hsize
    have hrt : Atoi (Sprint n1) = .ok n1 := Atoi_Sprint n1 (by omega) (by omega)
    refine ⟨hdata, rfl, ?_, ?_, ?_⟩
    · exact MIMEHeader.Get_Set_ne _ _ _ _ (by decide)
    · simp only [MIMEHeader.Get_Set_self]
      intro h0
      have he : Atoi "" = .error (Error.numError "Atoi" "" "invalid syntax") := by decide
      rw [h0, he] at hrt
      exact absurd hrt (by simp)
    · simp only [MIMEHeader.Get_Set_self]
      exact hrt
  · rw [he] at hr; simp at hr
  · rw [he] at hr
    simp only [Except.ok.injEq, Prod.mk.injEq] at hr
    obtain ⟨hn, hg, hk⟩ := hr
    subst hn hg hk
    exact ⟨rfl, rfl, rfl, hcl, ha⟩

/-! ## The claims -/

/-- Claim C1: in one run of `Upload`, `Put` is called at most once; a call of `Put` comes
after a call of `Validate` that returned no error and a result without entries; and when
`Validate` returns no error and a result with an entry, `Upload` returns that very result
with a nil error and `Put` is not called. -/
theorem Upload_put_gated {σ : Type} (req : Request) (u : Uploader σ) (s : σ) :
    List.countP Call.isPut (calls req u s) ≤ 1 ∧
    (∀ c ∈ calls req u s, c.isPut = true →
      ∃ h verrs, verrs.HasAny = false ∧ verrs.Count = 0 ∧
        List.Sublist [Call.Validate h verrs none, c] (calls req u s)) ∧
    (∀ h verrs, Call.Validate h verrs none ∈ calls req u s → verrs.HasAny = true →
      (Upload req u s).1 = (verrs, none) ∧ ∀ c ∈ calls req u s, c.isPut = false) := by
  obtain ⟨field, s1, _, hex⟩ := upload_exits req u s
  rcases hex with ⟨_, _, hc⟩ | ⟨err, _, _, _, hc⟩ | ⟨f, h, _, hex⟩
  · simp [hc, Call.isPut]
  · simp [hc, Call.isPut]
  · rcases hex with ⟨err, _, _, hc⟩ | ⟨fSize, g, k, verrs, verr, k2, s2, _, _, hex⟩
    · simp [hc, Call.isPut]
    · rcases hex with ⟨err, _, _, hc⟩ | ⟨_, hany, hu, hc⟩ |
        ⟨_, hany, path, k3, s3, perr, s4, _, _, hu, hc⟩
      · simp [hc, Call.isPut]
      · simp [hc, Call.isPut, hu]
      · have hzero : verrs.Count = 0 := by
          rw [Errors.HasAny_eq_false_iff] at hany
          simp [hany, Errors.Count, GoMap.len]
        refine ⟨by simp [hc, Call.isPut, List.countP_cons], ?_, ?_⟩
        · intro c hcm hput
          rw [hc] at hcm
          simp only [List.mem_cons, List.mem_singleton, List.not_mem_nil, or_false] at hcm
          rcases hcm with rfl | rfl | rfl | rfl
          · simp [Call.isPut] at hput
          · simp [Call.isPut] at hput
          · simp [Call.isPut] at hput
          · refine ⟨k, verrs, hany, hzero, ?_⟩
            rw [hc]
            exact List.Sublist.cons _ (List.Sublist.cons₂ _ (List.Sublist.cons _
              (List.Sublist.cons₂ _ List.Sublist.slnil)))
        · intro h1 v1 hmem hv
          rw [hc] at hmem
          simp only [List.mem_cons, List.mem_singleton, List.not_mem_nil, or_false,
            reduceCtorEq, false_or, Call.Validate.injEq, and_true] at hmem
          rw [hmem.2, hany] at hv
          exact absurd hv (by decide)

/-- A run of C1: the ten-million-byte JPEG against a PNG-only, five-million-byte uploader
comes back with the two messages, a nil error, and no call of `Put`. -/
theorem Upload_put_gated_witness :
    (Upload sampleBigRequest (sampleUploader "File" 5000000 sampleBytes false) 0).1 =
        ([("file", ["not an allowed type", "is too big 10 MB"])], none) ∧
      ∀ c ∈ calls sampleBigRequest (sampleUploader "File" 5000000 sampleBytes false) 0,
        c.isPut = false :=
  (Upload_put_gated sampleBigRequest (sampleUploader "File" 5000000 sampleBytes false) 0).2.2
    sampleBigHeader [("file", ["not an allowed type", "is too big 10 MB"])]
    (by decide) (by decide)

/-- Claim C2: when `FormFile` reports that no file is attached under `u.FieldName()`,
`Upload` returns an empty result and a nil error, and the only call made on the uploader
is `FieldName`: neither `Validate` nor `Put` is called. -/
theorem Upload_missing_file {σ : Type} (req : Request) (u : Uploader σ) (s : σ)
    (hmiss : req.FormFile (u.FieldName s).1 = .error Error.ErrMissingFile) :
    (Upload req u s).1 = (NewErrors, none) ∧ (Upload req u s).1.1.Count = 0 ∧
      calls req u s = [Call.FieldName (u.FieldName s).1] ∧
      ∀ c ∈ calls req u s, c.isValidate = false ∧ c.isPut = false := by
  obtain ⟨field, s1, hF, hex⟩ := upload_exits req u s
  rw [hF] at hmiss ⊢
  simp only at hmiss
  rcases hex with ⟨_, hu, hc⟩ | ⟨err, hreq, hne, _, _⟩ | ⟨f, h, hreq, _⟩
  · simp [hu, hc, NewErrors, Errors.Count, GoMap.len, Call.isValidate, Call.isPut]
  · rw [hreq] at hmiss
    simp only [Except.error.injEq] at hmiss
    exact absurd hmiss hne
  · rw [hreq] at hmiss
    simp at hmiss

/-- A run of C2: the sample request has nothing under `Avatar`. -/
theorem Upload_missing_file_witness :
    (Upload sampleRequest (sampleUploader "Avatar" 5000000 sampleBytes false) 0).1 =
        (NewErrors, none) ∧
      calls sampleRequest (sampleUploader "Avatar" 5000000 sampleBytes false) 0 =
        [Call.FieldName "Avatar"] :=
  have h := Upload_missing_file sampleRequest
    (sampleUploader "Avatar" 5000000 sampleBytes false) 0 (by decide)
  ⟨h.1, h.2.2.1⟩

/-- Claim C3: `Upload` returns a non-nil error exactly when form-file extraction fails
with an error other than missing-file, or a non-empty `Content-Length` does not parse, or
`Content-Length` is absent and a seek fails, or `Validate` returns a non-nil error, or
`Put` is called and returns a non-nil error.  In the first four cases `Put` is not called,
and when `Validate` returns a result with entries and no error, the error of `Upload` is
nil. -/
theorem Upload_error_iff {σ : Type} (req : Request) (u : Uploader σ) (s : σ) :
    ((Upload req u s).1.2 ≠ none ↔
      extractionFails req u s ∨ lengthMalformed req u s ∨ seekFails req u s ∨
        validateFails req u s ∨ putFails req u s) ∧
    (extractionFails req u s ∨ lengthMalformed req u s ∨ seekFails req u s ∨
        validateFails req u s → ∀ c ∈ calls req u s, c.isPut = false) ∧
    (∀ h verrs, Call.Validate h verrs none ∈ calls req u s → verrs.HasAny = true →
      (Upload req u s).1.2 = none) := by
  obtain ⟨field, s1, hF, hex⟩ := upload_exits req u s
  rcases hex with ⟨hreq, hu, hc⟩ | ⟨err, hreq, hne, hu, hc⟩ | ⟨f, h, hreq, hex⟩
  · simp [extractionFails, lengthMalformed, seekFails, validateFails, putFails, hF, hreq,
      hu, hc, Call.isPut]
  · simp [extractionFails, lengthMalformed, seekFails, validateFails, putFails, hF, hreq,
      hu, hc, hne, Call.isPut]
  · rcases hex with ⟨err, hr, hu, hc⟩ | ⟨fSize, g, k, verrs, verr, k2, s2, hr, _, hex⟩
    · have hcause : lengthMalformed req u s ∨ seekFails req u s := by
        unfold lengthMalformed seekFails
        rw [hF]
        rcases resolveSize_cases f h with ⟨hcl, e, g1, hs, _⟩ | ⟨_, n1, g1, _, he⟩ |
          ⟨hcl, e, ha, _⟩ | ⟨_, n1, _, he⟩
        · right
          refine ⟨f, h, hreq, hcl, ?_⟩
          rcases size_cases f with ⟨e1, k1, h1, _⟩ | ⟨n1, g2, e1, k1, h1, h2, _⟩ |
            ⟨n1, g2, m, k1, _, _, hs2⟩
          · exact Or.inl ⟨e1, k1, h1⟩
          · exact Or.inr ⟨n1, g2, e1, k1, h1, h2⟩
          · rw [hs2] at hs; simp at hs
        · rw [he] at hr; simp at hr
        · exact Or.inl ⟨f, h, e, hreq, hcl, ha⟩
        · rw [he] at hr; simp at hr
      refine ⟨?_, ?_, ?_⟩
      · simp only [hu, ne_eq, reduceCtorEq, not_false_eq_true, true_iff]
        rcases hcause with hm | hk
        · exact Or.inr (Or.inl hm)
        · exact Or.inr (Or.inr (Or.inl hk))
      · intro _ c hcm
        rw [hc] at hcm
        simp only [List.mem_singleton] at hcm
        simp [hcm, Call.isPut]
      · simp [hc]
    · have hnoext : ¬ extractionFails req u s := by
        simp [extractionFails, hF, hreq]
      have hnomal : ¬ lengthMalformed req u s := by
        unfold lengthMalformed
        rw [hF]
        rintro ⟨f1, h1, e, hq, hcl, ha⟩
        rw [hreq] at hq
        simp only [Except.ok.injEq, Prod.mk.injEq] at hq
        obtain ⟨hf, hh⟩ := hq
        subst hf hh
        rcases resolveSize_cases f h with ⟨hcl1, _⟩ | ⟨hcl1, _⟩ | ⟨_, e1, _, he⟩ |
          ⟨_, n1, ha1, _⟩
        · exact hcl hcl1
        · exact hcl hcl1
        · rw [he] at hr; simp at hr
        · rw [ha1] at ha; simp at ha
      have hnoseek : ¬ seekFails req u s := by
        unfold seekFails
        rw [hF]
        rintro ⟨f1, h1, hq, hcl, hsk⟩
        rw [hreq] at hq
        simp only [Except.ok.injEq, Prod.mk.injEq] at hq
        obtain ⟨hf, hh⟩ := hq
        subst hf hh
        rcases resolveSize_cases f h with ⟨_, e1, g1, _, he⟩ | ⟨_, n1, g1, hs, _⟩ |
          ⟨hcl1, _⟩ | ⟨hcl1, _⟩
        · rw [he] at hr; simp at hr
        · rcases size_cases f with ⟨e1, k1, _, hs2⟩ | ⟨n2, g2, e1, k1, _, _, hs2⟩ |
            ⟨n2, g2, m, k1, h1, h2, _⟩
          · rw [hs2] at hs; simp at hs
          · rw [hs2] at hs; simp at hs
          · rcases hsk with ⟨e, g3, h3⟩ | ⟨n3, g3, e, k3, h3, h4⟩
            · rw [h3] at h1; simp at h1
            · rw [h3] at h1
              simp only [Prod.mk.injEq, Except.ok.injEq] at h1
              rw [h1.2, h2] at h4
              simp at h4
        · exact hcl1 hcl
        · exact hcl1 hcl
      rcases hex with ⟨err, hverr, hu, hc⟩ | ⟨hverr, hany, hu, hc⟩ |
        ⟨hverr, hany, path, k3, s3, perr, s4, _, _, hu, hc⟩
      · simp [validateFails, putFails, hu, hc, hnoext, hnomal, hnoseek, Call.isPut]
      · simp [validateFails, putFails, hu, hc, hnoext, hnomal, hnoseek, Call.isPut]
      · cases perr with
        | none =>
          simp [validateFails, putFails, hu, hc, hnoext, hnomal, hnoseek, Call.isPut,
            WithStack, hany]
        | some e =>
          simp [validateFails, putFails, hu, hc, hnoext, hnomal, hnoseek, Call.isPut,
            WithStack, hany]

/-- A run of C3: the seek back to the start fails, so `Upload` returns a non-nil error. -/
theorem Upload_error_iff_witness :
    (Upload sampleBadSeekRequest (sampleUploader "File" 5000000 sampleBytes false) 0).1.2 ≠
      none :=
  (Upload_error_iff sampleBadSeekRequest (sampleUploader "File" 5000000 sampleBytes false)
    0).1.mpr (Or.inr (Or.inr (Or.inl ⟨sampleFileBadSeek, sampleHeader, by decide, by decide,
      Or.inr ⟨2, ⟨[80, 78], 2, [some (Error.other "EIO")], by decide⟩, Error.other "EIO",
        ⟨[80, 78], 2, [], by decide⟩, by decide, by decide⟩⟩)))

/-- Claim C4: on the success path (a file is attached, its size resolves, `Validate`
returns an empty result and no error, `Put` returns nil) `Upload` returns an empty result
and a nil error, and `Put` is called exactly once: with the path `u.Path` returned for the
header, the request's stream (the same bytes), the resolved size, and the `Content-Type`
the header holds when `Upload` reads it, that is after `Validate` and `Path` have run.
Size resolution keeps the file name and the `Content-Type` of the request's header, so
when `Validate` and `Path` leave the header as they got it, `Path` sees the request's file
name and `Put` gets the request's `Content-Type`. -/
theorem Upload_success {σ : Type} (req : Request) (u : Uploader σ) (s : σ)
    (f g : File) (h k k2 k3 : FileHeader) (fSize : Int) (verrs : Errors) (path : String)
    (s2 s3 s4 : σ)
    (hfile : req.FormFile (u.FieldName s).1 = .ok (f, h))
    (hsize : resolveSize f h = .ok (fSize, g, k))
    (hval : u.Validate k (u.FieldName s).2 = ((verrs, none), k2, s2))
    (hempty : verrs.Count = 0)
    (hpath : u.Path k2 s2 = (path, k3, s3))
    (hput : u.Put path g fSize (k3.Header.Get "Content-Type") s3 = (none, s4)) :
    Upload req u s = ((NewErrors, none), s4) ∧
      (Upload req u s).1.1.Count = 0 ∧
      (calls req u s).filter Call.isPut =
        [Call.Put path g fSize (k3.Header.Get "Content-Type") none] ∧
      (calls req u s).filter Call.isValidate = [Call.Validate k verrs none] ∧
      calls req u s =
        [Call.FieldName (u.FieldName s).1, Call.Validate k verrs none, Call.Path k2 path,
          Call.Put path g fSize (k3.Header.Get "Content-Type") none] ∧
      g.data = f.data ∧ k.Filename = h.Filename ∧
      k.Header.Get "Content-Type" = h.Header.Get "Content-Type" ∧
      (k2 = k → k3 = k2 →
        k2.Filename = h.Filename ∧
          (calls req u s).filter Call.isPut =
            [Call.Put path g fSize (h.Header.Get "Content-Type") none]) := by
  obtain ⟨hdata, hname, hct, _, _⟩ := resolveSize_ok f g h k fSize hsize
  have hnil : verrs = [] := (GoMap.len_eq_zero_iff verrs).mp hempty
  have hany : verrs.HasAny = false := (Errors.HasAny_eq_false_iff verrs).mpr hnil
  obtain ⟨field, s1, hF, hex⟩ := upload_exits req u s
  rw [hF] at hfile hval ⊢
  simp only at hfile hval ⊢
  rcases hex with ⟨hreq, _, _⟩ | ⟨err, hreq, _, _, _⟩ | ⟨f1, h1, hreq, hex⟩
  · rw [hreq] at hfile; simp at hfile
  · rw [hreq] at hfile; simp at hfile
  · rw [hreq] at hfile
    simp only [Except.ok.injEq, Prod.mk.injEq] at hfile
    obtain ⟨hf, hh⟩ := hfile
    subst hf hh
    rw [hsize] at hex
    rcases hex with ⟨err, hr, _, _⟩ | ⟨fSize1, g1, k1, verrs1, verr1, k21, s21, hr, hv, hex⟩
    · simp at hr
    · simp only [Except.ok.injEq, Prod.mk.injEq] at hr
      obtain ⟨hn, hg, hk⟩ := hr
      subst hn hg hk
      rw [hval] at hv
      simp only [Prod.mk.injEq] at hv
      obtain ⟨⟨hv1, hv2⟩, hk2, hs2⟩ := hv
      subst hv1 hv2 hk2 hs2
      rcases hex with ⟨err, hverr, _, _⟩ | ⟨_, hany1, _, _⟩ |
        ⟨_, _, path1, k31, s31, perr, s41, hp1, hput1, hu, hc⟩
      · simp at hverr
      · rw [hany] at hany1; simp at hany1
      · rw [hpath] at hp1
        simp only [Prod.mk.injEq] at hp1
        obtain ⟨hpa, hk3, hs3⟩ := hp1
        subst hpa hk3 hs3
        rw [hput] at hput1
        simp only [Prod.mk.injEq] at hput1
        obtain ⟨hpe, hs4⟩ := hput1
        subst hpe hs4
        have hputs : (calls req u s).filter Call.isPut =
            [Call.Put path g fSize (k3.Header.Get "Content-Type") none] := by
          rw [hc]; simp [List.filter, Call.isPut]
        refine ⟨?_, ?_, hputs, ?_, hc, hdata, hname, hct, ?_⟩
        · rw [hu, hnil]; rfl
        · rw [hu]; exact hempty
        · rw [hc]; simp [List.filter, Call.isValidate]
        · intro h2 h3
          rw [hputs, h3, h2, hct, hname]
          exact ⟨rfl, rfl⟩

/-- A run of C4 with an uploader that edits the header: the two-byte PNG `a.png` goes
through; `Validate` renames it and `Path` sets its type, so `Put` gets
`uploads/renamed.txt`, the stream rewound to its start, the size `2` and `text/plain`. -/
theorem Upload_success_witness :
    Upload sampleRequest sampleRenamingUploader 0 = ((NewErrors, none), 1) ∧
      (calls sampleRequest sampleRenamingUploader 0).filter Call.isPut =
        [Call.Put "uploads/renamed.txt" sampleFileRewound 2 "text/plain" none] :=
  have h := Upload_success sampleRequest sampleRenamingUploader 0
    sampleFile sampleFileRewound sampleHeader
    ⟨"a.png", [("Content-Type", ["image/png"]), ("Content-Length", ["2"])]⟩
    ⟨"renamed.txt", [("Content-Type", ["image/png"]), ("Content-Length", ["2"])]⟩
    ⟨"renamed.txt", [("Content-Type", ["text/plain"]), ("Content-Length", ["2"])]⟩
    2 [] "uploads/renamed.txt" 0 0 1 (by decide) (by decide) (by decide) (by decide)
    (by decide) (by decide)
  ⟨h.1, h.2.2.1⟩

/-- Claim C5: when both seeks of `size` succeed, `size` returns the number of bytes of
the stream whatever its offset was, and leaves the offset at `0`, so that the stream reads
in full from its start; with no `Content-Length` in the header this is the size `Upload`
resolves, and the stream and size any call of `Put` receives. -/
theorem size_round_trip (f g k : File) (n m : Int)
    (hend : f.Seek 0 2 = (.ok n, g)) (hstart : g.Seek 0 0 = (.ok m, k)) :
    size f = (.ok (f.data.length : Int), k) ∧ k.pos = 0 ∧ k.data = f.data ∧
      k.readAll = f.data ∧
      (∀ h : FileHeader, h.Header.Get "Content-Length" = "" →
        resolveSize f h = .ok ((f.data.length : Int), k,
          { h with Header := h.Header.Set "Content-Length" (Sprint f.data.length) })) ∧
      (∀ (σ : Type) (req : Request) (u : Uploader σ) (s : σ) (h : FileHeader),
        req.FormFile (u.FieldName s).1 = .ok (f, h) → h.Header.Get "Content-Length" = "" →
        ∀ path r sz ct err, Call.Put path r sz ct err ∈ calls req u s →
          r = k ∧ sz = (f.data.length : Int)) := by
  have hs : size f = (.ok n, k) := by
    unfold size
    simp [hend, hstart]
  obtain ⟨hn, hpos, hdata⟩ := size_ok f k n hs
  subst hn
  have hres : ∀ h : FileHeader, h.Header.Get "Content-Length" = "" →
      resolveSize f h = .ok ((f.data.length : Int), k,
        { h with Header := h.Header.Set "Content-Length" (Sprint f.data.length) }) := by
    intro h hcl
    unfold resolveSize
    simp [hcl, hs]
  refine ⟨hs, hpos, hdata, by simp [File.readAll, hpos, hdata], hres, ?_⟩
  intro σ req u s h hfile hcl path r sz ct err hmem
  obtain ⟨field, s1, hF, hex⟩ := upload_exits req u s
  rw [hF] at hfile
  simp only at hfile
  rcases hex with ⟨_, _, hc⟩ | ⟨e, _, _, _, hc⟩ | ⟨f1, h1, hreq, hex⟩
  · rw [hc] at hmem; simp at hmem
  · rw [hc] at hmem; simp at hmem
  · rw [hreq] at hfile
    simp only [Except.ok.injEq, Prod.mk.injEq] at hfile
    obtain ⟨hf, hh⟩ := hfile
    subst hf hh
    rw [hres h1 hcl] at hex
    rcases hex with ⟨e, hr, _, _⟩ | ⟨fSize1, g1, k1, verrs1, verr1, k21, s21, hr, _, hex⟩
    · simp at hr
    · simp only [Except.ok.injEq, Prod.mk.injEq] at hr
      obtain ⟨hn, hg, _⟩ := hr
      subst hn hg
      rcases hex with ⟨e, _, _, hc⟩ | ⟨_, _, _, hc⟩ | ⟨_, _, p1, k31, s31, perr, s41, _, _, _, hc⟩
      · rw [hc] at hmem; simp at hmem
      · rw [hc] at hmem; simp at hmem
      · rw [hc] at hmem
        simp only [List.mem_cons, List.mem_singleton, List.not_mem_nil, or_false,
          reduceCtorEq, false_or, Call.Put.injEq] at hmem
        exact ⟨hmem.2.1, hmem.2.2.1⟩

/-- A run of C5: the two-byte file at offset `1` is measured as `2` bytes and is left at
offset `0`. -/
theorem size_round_trip_witness :
    size sampleFile = (.ok 2, sampleFileRewound) ∧ sampleFileRewound.readAll = [80, 78] :=
  have h := size_round_trip sampleFile ⟨[80, 78], 2, [], by decide⟩ sampleFileRewound 2 0
    (by decide) (by decide)
  ⟨h.1, h.2.2.2.1⟩

/-- Claim C6: in a run of `Upload` that calls `Validate`, the header passed has a
non-empty `Content-Length` that `strconv.Atoi` reads as an integer `n`; every call of `Put`
in the run gets `n` as its size; the header is the request's own when that declares a
length and otherwise carries the printed length of the stream; and
`MaxFileSizeValidator.IsValid` on that header takes the comparison branch, never the
parse-failure one. -/
theorem Upload_validate_put_same_size {σ : Type} (req : Request) (u : Uploader σ) (s : σ)
    (k : FileHeader) (verrs : Errors) (verr : Option Error)
    (hcall : Call.Validate k verrs verr ∈ calls req u s) :
    k.Header.Get "Content-Length" ≠ "" ∧
    ∃ n : Int, Atoi (k.Header.Get "Content-Length") = .ok n ∧
      (∀ path r sz ct err, Call.Put path r sz ct err ∈ calls req u s → sz = n) ∧
      (∀ f h, req.FormFile (u.FieldName s).1 = .ok (f, h) →
        (h.Header.Get "Content-Length" ≠ "" → k = h) ∧
        (h.Header.Get "Content-Length" = "" →
          n = (f.data.length : Int) ∧
            k.Header.Get "Content-Length" = Sprint (f.data.length : Int))) ∧
      (∀ (GenerateKey : String → String) (Bytes : Nat → String) (field : String)
          (maxSize : Int) (errors : Errors),
        MaxFileSizeValidator.IsValid GenerateKey Bytes ⟨field, maxSize, k⟩ errors =
          if n > maxSize then
            errors.Add (GenerateKey field) ("is too big " ++ Bytes (toUint64 n))
          else errors) := by
  obtain ⟨field, s1, hF, hex⟩ := upload_exits req u s
  rw [hF]
  simp only
  rcases hex with ⟨_, _, hc⟩ | ⟨e, _, _, _, hc⟩ | ⟨f, h, hreq, hex⟩
  · rw [hc] at hcall; simp at hcall
  · rw [hc] at hcall; simp at hcall
  · rcases hex with ⟨e, _, _, hc⟩ | ⟨fSize, g, k1, verrs1, verr1, k2, s2, hr, _, hex⟩
    · rw [hc] at hcall; simp at hcall
    · obtain ⟨_, _, _, hne, hatoi⟩ := resolveSize_ok f g h k1 fSize hr
      have hk : k = k1 ∧ ∀ path r sz ct err,
          Call.Put path r sz ct err ∈ calls req u s → sz = fSize := by
        rcases hex with ⟨e, _, _, hc⟩ | ⟨_, _, _, hc⟩ |
          ⟨_, _, p1, k3, s3, perr, s4, _, _, _, hc⟩
        · rw [hc] at hcall ⊢
          simp at hcall ⊢
          exact hcall.1
        · rw [hc] at hcall ⊢
          simp at hcall ⊢
          exact hcall.1
        · rw [hc] at hcall ⊢
          simp only [List.mem_cons, List.mem_singleton, List.not_mem_nil, or_false,
            reduceCtorEq, false_or, Call.Validate.injEq, or_false] at hcall
          refine ⟨hcall.1, ?_⟩
          intro path r sz ct err hmem
          simp only [List.mem_cons, List.mem_singleton, List.not_mem_nil, or_false,
            reduceCtorEq, false_or, Call.Put.injEq] at hmem
          exact hmem.2.2.1
      obtain ⟨hkk, hputs⟩ := hk
      subst hkk
      refine ⟨hne, fSize, hatoi, hputs, ?_, ?_⟩
      · intro f1 h1 hq
        rw [hreq] at hq
        simp only [Except.ok.injEq, Prod.mk.injEq] at hq
        obtain ⟨hf, hh⟩ := hq
        subst hf hh
        rcases resolveSize_cases f h with ⟨_, e, g1, _, he⟩ | ⟨hcl, n1, g1, hs, he⟩ |
          ⟨_, e, _, he⟩ | ⟨hcl, n1, _, he⟩
        · rw [he] at hr; simp at hr
        · rw [he] at hr
          simp only [Except.ok.injEq, Prod.mk.injEq] at hr
          obtain ⟨hn, _, hk2⟩ := hr
          subst hn
          obtain ⟨hlen, _, _⟩ := size_ok f g1 n1 hs
          refine ⟨fun hx => absurd hcl hx, fun _ => ⟨hlen, ?_⟩⟩
          rw [← hk2, ← hlen]
          exact MIMEHeader.Get_Set_self _ _ _
        · rw [he] at hr; simp at hr
        · rw [he] at hr
          simp only [Except.ok.injEq, Prod.mk.injEq] at hr
          exact ⟨fun _ => hr.2.2.symm, fun hx => absurd hx hcl⟩
      · intro GenerateKey Bytes field maxSize errors
        simp [MaxFileSizeValidator.IsValid, hatoi]

/-- A run of C6: the header `Validate` receives for the two-byte file reads `2`, and `2` is
the size `Put` receives. -/
theorem Upload_validate_put_same_size_witness :
    ∃ n : Int, Atoi "2" = .ok n ∧
      ∀ path r sz ct err,
        Call.Put path r sz ct err ∈
          calls sampleRequest (sampleUploader "File" 5000000 sampleBytes false) 0 → sz = n :=
  have h := Upload_validate_put_same_size sampleRequest
    (sampleUploader "File" 5000000 sampleBytes false) 0
    ⟨"a.png", [("Content-Type", ["image/png"]), ("Content-Length", ["2"])]⟩ [] none
    (by decide)
  match h.2 with
  | ⟨n, hn, hp, _⟩ => ⟨n, hn, hp⟩

/-- Claim C7: `FileTypeValidator.IsValid` leaves the accumulator as it is when the
header's `Content-Type` is allowed (`AllowedTypes` maps that very string to `true`), and
otherwise adds the one message `not an allowed type` under `GenerateKey(Field)`: the
messages already under that key stay in front of it and every other key is untouched. -/
theorem FileTypeValidator_IsValid_spec (GenerateKey : String → String)
    (f : FileTypeValidator) (errors : Errors) :
    (GoMap.find? f.AllowedTypes (f.Headers.Header.Get "Content-Type") = some true →
      f.IsValid GenerateKey errors = errors) ∧
    (GoMap.find? f.AllowedTypes (f.Headers.Header.Get "Content-Type") ≠ some true →
      f.IsValid GenerateKey errors = errors.Add (GenerateKey f.Field) "not an allowed type" ∧
      GoMap.index [] (f.IsValid GenerateKey errors) (GenerateKey f.Field) =
        GoMap.index [] errors (GenerateKey f.Field) ++ ["not an allowed type"] ∧
      ∀ other, other ≠ GenerateKey f.Field →
        GoMap.find? (f.IsValid GenerateKey errors) other = GoMap.find? errors other) := by
  constructor
  · intro hin
    simp [FileTypeValidator.IsValid, GoMap.index, hin]
  · intro hout
    have hidx : GoMap.index false f.AllowedTypes (f.Headers.Header.Get "Content-Type") =
        false := by
      unfold GoMap.index
      cases hfind : GoMap.find? f.AllowedTypes (f.Headers.Header.Get "Content-Type") with
      | none => rfl
      | some b =>
        cases b with
        | false => rfl
        | true => exact absurd hfind hout
    have heq : f.IsValid GenerateKey errors =
        errors.Add (GenerateKey f.Field) "not an allowed type" := by
      simp [FileTypeValidator.IsValid, hidx]
    refine ⟨heq, ?_, ?_⟩
    · rw [heq]
      exact Errors.index_Add_self _ _ _
    · intro other hne
      rw [heq]
      exact Errors.find?_Add_ne _ _ _ _ hne

/-- A run of C7: a JPEG against a PNG-only validator, on an accumulator that already holds
a message under the key. -/
theorem FileTypeValidator_IsValid_spec_witness :
    FileTypeValidator.IsValid sampleKey ⟨"File", [("image/png", true)], sampleBigHeader⟩
        [("file", ["is required"])] =
      [("file", ["is required", "not an allowed type"])] :=
  ((FileTypeValidator_IsValid_spec sampleKey
    ⟨"File", [("image/png", true)], sampleBigHeader⟩ [("file", ["is required"])]).2
      (by decide)).1.trans (by decide)

/-- Claim C8: when the header's `Content-Length` parses as the integer `s`,
`MaxFileSizeValidator.IsValid` adds, if `s > MaxSize`, the one message `is too big `
followed by `humanize.Bytes(uint64(s))` under `GenerateKey(Field)` (`uint64(s)` is `s`
itself for `s ≥ 0`), and adds nothing if `s ≤ MaxSize`; the comparison is that of the two
integers.  With a rendering that writes ten million bytes as `10 MB`, a declared length of
ten million against a maximum of five million gives `is too big 10 MB`. -/
theorem MaxFileSizeValidator_IsValid_parsed (GenerateKey : String → String)
    (Bytes : Nat → String) (m : MaxFileSizeValidator) (errors : Errors) (s : Int)
    (hparse : Atoi (m.Headers.Header.Get "Content-Length") = .ok s) :
    (s > m.MaxSize →
      m.IsValid GenerateKey Bytes errors =
        errors.Add (GenerateKey m.Field) ("is too big " ++ Bytes (toUint64 s)) ∧
      GoMap.index [] (m.IsValid GenerateKey Bytes errors) (GenerateKey m.Field) =
        GoMap.index [] errors (GenerateKey m.Field) ++
          ["is too big " ++ Bytes (toUint64 s)] ∧
      ∀ other, other ≠ GenerateKey m.Field →
        GoMap.find? (m.IsValid GenerateKey Bytes errors) other = GoMap.find? errors other) ∧
    (s ≤ m.MaxSize → m.IsValid GenerateKey Bytes errors = errors) ∧
    (0 ≤ s → ((toUint64 s : Nat) : Int) = s) ∧
    (Bytes 10000000 = "10 MB" → s = 10000000 → m.MaxSize = 5000000 →
      m.IsValid GenerateKey Bytes NewErrors =
        [(GenerateKey m.Field, ["is too big 10 MB"])]) := by
  have hrange : 0 ≤ s → ((toUint64 s : Nat) : Int) = s := by
    intro h0
    have hlt := (Atoi_range _ s hparse).2
    unfold toUint64
    omega
  refine ⟨?_, ?_, hrange, ?_⟩
  · intro hgt
    have heq : m.IsValid GenerateKey Bytes errors =
        errors.Add (GenerateKey m.Field) ("is too big " ++ Bytes (toUint64 s)) := by
      simp [MaxFileSizeValidator.IsValid, hparse, hgt]
    refine ⟨heq, ?_, ?_⟩
    · rw [heq]
      exact Errors.index_Add_self _ _ _
    · intro other hne
      rw [heq]
      exact Errors.find?_Add_ne _ _ _ _ hne
  · intro hle
    have hng : ¬ s > m.MaxSize := not_lt.mpr hle
    simp [MaxFileSizeValidator.IsValid, hparse, hng]
  · intro hb hs hmax
    subst hs
    have hu : toUint64 10000000 = 10000000 := by decide
    simp [MaxFileSizeValidator.IsValid, hparse, hmax, hu, hb, Errors.Add, NewErrors,
      GoMap.assign, GoMap.index, GoMap.find?]

/-- A run of C8: ten million bytes declared against a maximum of five million. -/
theorem MaxFileSizeValidator_IsValid_parsed_witness :
    MaxFileSizeValidator.IsValid sampleKey sampleBytes ⟨"File", 5000000, sampleBigHeader⟩
        NewErrors =
      [("file", ["is too big 10 MB"])] :=
  (MaxFileSizeValidator_IsValid_parsed sampleKey sampleBytes
    ⟨"File", 5000000, sampleBigHeader⟩ NewErrors 10000000 (by decide)).2.2.2
      (by decide) rfl rfl

/-- Claim C9: when the header's `Content-Length` does not parse as an integer,
`MaxFileSizeValidator.IsValid` adds the one message `couldn't parse content length` under
`GenerateKey(Field)` and nothing else, whatever `MaxSize` is; a header without a
`Content-Length` is such a header. -/
theorem MaxFileSizeValidator_IsValid_unparsed (GenerateKey : String → String)
    (Bytes : Nat → String) (m : MaxFileSizeValidator) (errors : Errors) (err : Error)
    (hparse : Atoi (m.Headers.Header.Get "Content-Length") = .error err) :
    (∀ maxSize : Int,
      MaxFileSizeValidator.IsValid GenerateKey Bytes { m with MaxSize := maxSize } errors =
        errors.Add (GenerateKey m.Field) "couldn't parse content length") ∧
    GoMap.index [] (m.IsValid GenerateKey Bytes errors) (GenerateKey m.Field) =
      GoMap.index [] errors (GenerateKey m.Field) ++ ["couldn't parse content length"] ∧
    (∀ other, other ≠ GenerateKey m.Field →
      GoMap.find? (m.IsValid GenerateKey Bytes errors) other = GoMap.find? errors other) ∧
    (∀ h : FileHeader, GoMap.find? h.Header "Content-Length" = none →
      ∃ e, Atoi (h.Header.Get "Content-Length") = .error e) := by
  have hall : ∀ maxSize : Int,
      MaxFileSizeValidator.IsValid GenerateKey Bytes { m with MaxSize := maxSize } errors =
        errors.Add (GenerateKey m.Field) "couldn't parse content length" := by
    intro maxSize
    simp [MaxFileSizeValidator.IsValid, hparse]
  have heq : m.IsValid GenerateKey Bytes errors =
      errors.Add (GenerateKey m.Field) "couldn't parse content length" := hall m.MaxSize
  refine ⟨hall, ?_, ?_, ?_⟩
  · rw [heq]
    exact Errors.index_Add_self _ _ _
  · intro other hne
    rw [heq]
    exact Errors.find?_Add_ne _ _ _ _ hne
  · intro h hnone
    refine ⟨Error.numError "Atoi" "" "invalid syntax", ?_⟩
    have hget : h.Header.Get "Content-Length" = "" := by
      simp [MIMEHeader.Get, GoMap.index, hnone]
    rw [hget]
    decide

/-- A run of C9: a header without `Content-Length`, a maximum of zero. -/
theorem MaxFileSizeValidator_IsValid_unparsed_witness :
    MaxFileSizeValidator.IsValid sampleKey sampleBytes ⟨"File", 0, sampleHeader⟩ NewErrors =
      [("file", ["couldn't parse content length"])] :=
  ((MaxFileSizeValidator_IsValid_unparsed sampleKey sampleBytes ⟨"File", 0, sampleHeader⟩
    NewErrors (Error.numError "Atoi" "" "invalid syntax") (by decide)).1 0).trans (by decide)

/-- Claim C10: the `Validate` of `s3Uploader` returns an empty result and a nil error for
every header; `Upload` with it never returns a result with entries; and every file
attached under `File` whose size resolves reaches `Put`, once, with the file's name as
path, whatever its content type and size. -/
theorem s3Uploader_no_validation {σ : Type}
    (PutReader : String → File → Int → String → String → σ → Option Error × σ) :
    (∀ (h : FileHeader) (s : σ), ((s3Uploader PutReader).Validate h s).1 = (NewErrors, none)) ∧
    (∀ (s : σ), ((s3Uploader PutReader).FieldName s).1 = "File") ∧
    (∀ (req : Request) (s : σ),
      (Upload req (s3Uploader PutReader) s).1.1.HasAny = false ∧
        (Upload req (s3Uploader PutReader) s).1.1.Count = 0) ∧
    (∀ (req : Request) (s : σ) (f g : File) (h k : FileHeader) (fSize : Int),
      req.FormFile "File" = .ok (f, h) → resolveSize f h = .ok (fSize, g, k) →
      ∃ perr, (calls req (s3Uploader PutReader) s).filter Call.isPut =
        [Call.Put h.Filename g fSize (h.Header.Get "Content-Type") perr]) := by
  refine ⟨fun _ _ => rfl, fun _ => rfl, ?_, ?_⟩
  · intro req s
    have hgoal : (Upload req (s3Uploader PutReader) s).1.1 = [] := by
      obtain ⟨field, s1, _, hex⟩ := upload_exits req (s3Uploader PutReader) s
      rcases hex with ⟨_, hu, _⟩ | ⟨e, _, _, hu, _⟩ | ⟨f, h, _, hex⟩
      · rw [hu]; rfl
      · rw [hu]; rfl
      · rcases hex with ⟨e, _, hu, _⟩ | ⟨fSize, g, k, verrs, verr, k2, s2, _, hv, hex⟩
        · rw [hu]; rfl
        · have hverrs : verrs = [] := by
            simp only [s3Uploader, Prod.mk.injEq] at hv
            exact hv.1.1.symm
          rcases hex with ⟨e, _, hu, _⟩ | ⟨_, _, hu, _⟩ | ⟨_, _, p, k3, s3, perr, s4, _, _, hu, _⟩
          · rw [hu]; exact hverrs
          · rw [hu]; exact hverrs
          · rw [hu]; exact hverrs
    rw [hgoal]
    exact ⟨by decide, by decide⟩
  · intro req s f g h k fSize hfile hsize
    obtain ⟨_, hname, hct, _, _⟩ := resolveSize_ok f g h k fSize hsize
    obtain ⟨field, s1, hF, hex⟩ := upload_exits req (s3Uploader PutReader) s
    have hfield : field = "File" := by
      simp only [s3Uploader, Prod.mk.injEq] at hF
      exact hF.1.symm
    subst hfield
    rcases hex with ⟨hreq, _, _⟩ | ⟨e, hreq, _, _, _⟩ | ⟨f1, h1, hreq, hex⟩
    · rw [hreq] at hfile; simp at hfile
    · rw [hreq] at hfile; simp at hfile
    · rw [hreq] at hfile
      simp only [Except.ok.injEq, Prod.mk.injEq] at hfile
      obtain ⟨hf, hh⟩ := hfile
      subst hf hh
      rw [hsize] at hex
      rcases hex with ⟨e, hr, _, _⟩ | ⟨fSize1, g1, k1, verrs, verr, k2, s2, hr, hv, hex⟩
      · simp at hr
      · simp only [Except.ok.injEq, Prod.mk.injEq] at hr
        obtain ⟨hn, hg, hk⟩ := hr
        subst hn hg hk
        simp only [s3Uploader, Prod.mk.injEq] at hv
        obtain ⟨⟨hv1, hv2⟩, hk2, _⟩ := hv
        subst hv1 hv2 hk2
        rcases hex with ⟨e, hverr, _, _⟩ | ⟨_, hany, _, _⟩ |
          ⟨_, _, p, k3, s3, perr, s4, hp, _, _, hc⟩
        · simp at hverr
        · simp [NewErrors, Errors.HasAny, Errors.Count, GoMap.len] at hany
        · simp only [s3Uploader, Prod.mk.injEq] at hp
          obtain ⟨hp1, hk3, _⟩ := hp
          subst hp1 hk3
          refine ⟨perr, ?_⟩
          rw [hc, hname, hct]
          simp [List.filter, Call.isPut]

/-- A run of C10: the ten-million-byte JPEG, which the validators would turn down, is
handed to `Put` under its file name. -/
theorem s3Uploader_no_validation_witness :
    ∃ perr, (calls sampleBigRequest (s3Uploader samplePutReader) []).filter Call.isPut =
      [Call.Put "b.jpg" sampleFile 10000000 "image/jpeg" perr] :=
  (s3Uploader_no_validation samplePutReader).2.2.2 sampleBigRequest [] sampleFile sampleFile
    sampleBigHeader sampleBigHeader 10000000 (by decide) (by decide)

end Wave
